import Mathlib

/-!
Verification development for the snapd repository slice: snap version
validation (`snap/validate.go`), the mountinfo tool's `Device` number
packing (`tests/lib/bin/mountinfo-tool`), and the assertions subsystem
(assertion documents, trust database, chain verifier, registration
protocol client) as described by the repository's specification.

The assertions subsystem's implementation is not part of the source
slice, so its operations are modelled from the specification; the
version validation and device-number code are embedded directly from
the source.
-/

namespace Snapd

/-! ## Snap version validation (from `snap/validate.go`) -/

/-- ASCII alphanumeric, the `[a-zA-Z0-9]` character class of
`isValidVersion` in `snap/validate.go`. -/
def isAlnumChar (c : Char) : Bool :=
  (('a' ≤ c) && (c ≤ 'z')) || (('A' ≤ c) && (c ≤ 'Z')) || (('0' ≤ c) && (c ≤ '9'))

/-- The `[a-zA-Z0-9:.+~-]` character class allowed in the middle of a
snap version string. -/
def isMidVersionChar (c : Char) : Bool :=
  isAlnumChar c || c = ':' || c = '.' || c = '+' || c = '~' || c = '-'

/-- The `[a-zA-Z0-9+~]` character class allowed as the final character
of a snap version string of length at least two. -/
def isLastVersionChar (c : Char) : Bool :=
  isAlnumChar c || c = '+' || c = '~'

/-- The regular expression
`^[a-zA-Z0-9](?:[a-zA-Z0-9:.+~-]{0,30}[a-zA-Z0-9+~])?$`
(`isValidVersion` in `snap/validate.go`): first character alphanumeric;
either nothing follows, or up to thirty middle-class characters followed
by one last-class character. -/
def isValidVersion (v : List Char) : Bool :=
  match v with
  | [] => false
  | c :: rest =>
    isAlnumChar c &&
      (match rest.getLast? with
       | none => true
       | some lastc =>
         decide (rest.length ≤ 31) && rest.dropLast.all isMidVersionChar &&
           isLastVersionChar lastc)

/-- POSIX `[:graph:]`: printable, non-whitespace ASCII
(`isNonGraphicalASCII` in `snap/validate.go` matches the complement). -/
def isGraphChar (c : Char) : Bool :=
  decide (0x21 ≤ c.toNat) && decide (c.toNat ≤ 0x7e)

/-- The list of diagnostic reasons collected by `ValidateVersion` in its
failure branch (too long / bad first char / bad last char / bad middle
chars), `snap/validate.go` lines 103-123. -/
def versionFailureReasons (version : List Char) : List String :=
  (if 32 < version.length then
    ["cannot be longer than 32 characters"] else []) ++
  (match version with
   | [] => []
   | c :: _ => if !isAlnumChar c then
      ["must start with an ASCII alphanumeric"] else []) ++
  (if 1 < version.length then
    (match version.getLast? with
     | some lastc => if !isLastVersionChar lastc then
        ["must end with an ASCII alphanumeric or one of + or ~"] else []
     | none => []) ++
    (if 2 < version.length then
      (if ((version.drop 1).dropLast.filter (fun c => !isMidVersionChar c)) ≠ [] then
        ["contains invalid characters"] else [])
     else [])
   else [])

/-- `ValidateVersion` from `snap/validate.go`: `none` models a `nil`
error; each `some` carries the error message kind. -/
def ValidateVersion (version : List Char) : Option String :=
  if isValidVersion version then none
  else if version.length = 0 then
    some "invalid snap version: cannot be empty"
  else if version.any (fun c => !isGraphChar c) then
    some "invalid snap version: must be printable, non-whitespace ASCII"
  else
    match versionFailureReasons version with
    | [] => some "invalid snap version"
    | [r] => some ("invalid snap version: " ++ r)
    | rs => some ("invalid snap version: " ++ String.intercalate ", " rs)

/-! ## Device numbers (from `tests/lib/bin/mountinfo-tool`) -/

namespace Device

/-- `Device.pack(major, minor)`: `(major << 16) | (minor & (1 << 16) - 1)`. -/
def pack (major minor : Nat) : Nat :=
  (major <<< 16) ||| (minor &&& ((1 <<< 16) - 1))

/-- `Device.major`: the higher 16 bits of the device number (`self >> 16`). -/
def major (d : Nat) : Nat := d >>> 16

/-- `Device.minor`: the lower 16 bits of the device number
(`self & ((1 << 16) - 1)`). -/
def minor (d : Nat) : Nat := d &&& ((1 <<< 16) - 1)

end Device

/-! ## Assertions subsystem

The assertions subsystem (assertion documents and their encoding, the
type registry, the trust database, the chain verifier, the registration
protocol client) is described by the specification but its
implementation is not part of this source slice; the definitions below
are therefore modelled from the specification. -/

/-- Modelled from the spec: byte payloads (assertion bodies, signature
bytes, encoded documents) are opaque byte sequences. -/
abbrev Bytes := List Nat

/-- Modelled from the spec: a self-delimiting encoding of a natural
number (used for segment lengths and counts), giving the encoding's
unambiguous delimiters. -/
def encNat (n : Nat) : Bytes := List.replicate n 1 ++ [0]

/-- Modelled from the spec: decoder for `encNat`; fails on a malformed
or truncated stream instead of misparsing. -/
def decNat : Bytes → Option (Nat × Bytes)
  | [] => none
  | 0 :: rest => some (0, rest)
  | 1 :: rest =>
    match decNat rest with
    | some (n, r) => some (n + 1, r)
    | none => none
  | _ :: _ => none

/-- Modelled from the spec: a length-prefixed byte segment. -/
def encBytes (bs : Bytes) : Bytes := encNat bs.length ++ bs

/-- Modelled from the spec: decoder for `encBytes`; fails when the
stream is shorter than the declared length. -/
def decBytes (l : Bytes) : Option (Bytes × Bytes) :=
  match decNat l with
  | some (n, r) => if n ≤ r.length then some (r.take n, r.drop n) else none
  | none => none

/-- Modelled from the spec: the byte rendering of a header string. -/
def strBytes (s : String) : Bytes := s.data.map Char.toNat

/-- Modelled from the spec: rebuild a string from its byte rendering. -/
def bytesStr (bs : Bytes) : String := String.mk (bs.map Char.ofNat)

/-- Modelled from the spec: a length-prefixed string segment. -/
def encString (s : String) : Bytes := encBytes (strBytes s)

/-- Modelled from the spec: decoder for `encString`. -/
def decString (l : Bytes) : Option (String × Bytes) :=
  match decBytes l with
  | some (bs, r) => some (bytesStr bs, r)
  | none => none

/-- Modelled from the spec: an optional natural number segment (used
for sequence numbers and embedded public keys). -/
def encOptNat : Option Nat → Bytes
  | none => [0]
  | some n => 1 :: encNat n

/-- Modelled from the spec: decoder for `encOptNat`. -/
def decOptNat : Bytes → Option (Option Nat × Bytes)
  | [] => none
  | 0 :: r => some (none, r)
  | 1 :: r =>
    match decNat r with
    | some (n, r') => some (some n, r')
    | none => none
  | _ :: _ => none

/-- Modelled from the spec: an integer header value segment (sign tag
followed by magnitude). -/
def encInt (n : Int) : Bytes :=
  if 0 ≤ n then 0 :: encNat n.toNat else 1 :: encNat (-n).toNat

/-- Modelled from the spec: decoder for `encInt`. -/
def decInt : Bytes → Option (Int × Bytes)
  | [] => none
  | 0 :: r =>
    match decNat r with
    | some (n, r') => some ((n : Int), r')
    | none => none
  | 1 :: r =>
    match decNat r with
    | some (n, r') => some (-(n : Int), r')
    | none => none
  | _ :: _ => none

/-- Modelled from the spec: an optional body segment, distinct from an
empty body. -/
def encOptBytes : Option Bytes → Bytes
  | none => [0]
  | some bs => 1 :: encBytes bs

/-- Modelled from the spec: decoder for `encOptBytes`. -/
def decOptBytes : Bytes → Option (Option Bytes × Bytes)
  | [] => none
  | 0 :: r => some (none, r)
  | 1 :: r =>
    match decBytes r with
    | some (bs, r') => some (some bs, r')
    | none => none
  | _ :: _ => none

/-- Modelled from the spec: header values are strings, integers, or
lists of strings. -/
inductive HVal
  | s (v : String)
  | i (n : Int)
  | l (vs : List String)
deriving DecidableEq, Repr

/-- Modelled from the spec: tagged encoding of a header value. -/
def encHVal : HVal → Bytes
  | .s v => 0 :: encString v
  | .i n => 1 :: encInt n
  | .l vs => 2 :: (encNat vs.length ++ (vs.map encString).flatten)

/-- Modelled from the spec: decoder for a counted list of strings. -/
def decStrings : Nat → Bytes → Option (List String × Bytes)
  | 0, l => some ([], l)
  | k + 1, l =>
    match decString l with
    | some (s, r) =>
      match decStrings k r with
      | some (ss, r') => some (s :: ss, r')
      | none => none
    | none => none

/-- Modelled from the spec: decoder for `encHVal`. -/
def decHVal : Bytes → Option (HVal × Bytes)
  | [] => none
  | 0 :: r =>
    match decString r with
    | some (v, r') => some (.s v, r')
    | none => none
  | 1 :: r =>
    match decInt r with
    | some (n, r') => some (.i n, r')
    | none => none
  | 2 :: r =>
    match decNat r with
    | some (k, r') =>
      match decStrings k r' with
      | some (vs, r'') => some (.l vs, r'')
      | none => none
    | none => none
  | _ :: _ => none

/-- Modelled from the spec: one header, a string key and a typed value. -/
def encHeader (h : String × HVal) : Bytes := encString h.1 ++ encHVal h.2

/-- Modelled from the spec: the header block, a counted sequence of
headers serialized in stored order (canonical order is enforced by the
decoder and by assertion validity). -/
def encHeaders (hs : List (String × HVal)) : Bytes :=
  encNat hs.length ++ (hs.map encHeader).flatten

/-- Modelled from the spec: decoder for a counted sequence of headers. -/
def decHeaders : Nat → Bytes → Option (List (String × HVal) × Bytes)
  | 0, l => some ([], l)
  | k + 1, l =>
    match decString l with
    | some (key, r) =>
      match decHVal r with
      | some (v, r') =>
        match decHeaders k r' with
        | some (hs, r'') => some ((key, v) :: hs, r'')
        | none => none
      | none => none
    | none => none

/-- Modelled from the spec: strict lexicographic order on character
lists, used for the canonical header ordering. -/
def charsLt : List Char → List Char → Bool
  | [], [] => false
  | [], _ :: _ => true
  | _ :: _, [] => false
  | a :: as, b :: bs => a < b || (a = b && charsLt as bs)

/-- Modelled from the spec: strict lexicographic order on header keys. -/
def keyLt (a b : String) : Bool := charsLt a.data b.data

/-- Modelled from the spec: the canonical (strictly ascending
lexicographic) ordering of header keys used by the signing encoding. -/
def keysCanonical : List (String × HVal) → Bool
  | [] => true
  | [_] => true
  | (k1, _) :: (k2, v2) :: rest => keyLt k1 k2 && keysCanonical ((k2, v2) :: rest)

/-- Modelled from the spec: the fixed enumerated set of assertion
types. -/
inductive ATy
  | account
  | accountKey
  | model
  | serial
  | serialRequest
  | validationSet
deriving DecidableEq, Repr

/-- Modelled from the spec: encoding tag of an assertion type. -/
def ATy.tag : ATy → Nat
  | .account => 0
  | .accountKey => 1
  | .model => 2
  | .serial => 3
  | .serialRequest => 4
  | .validationSet => 5

/-- Modelled from the spec: decoding of an assertion type tag. -/
def ATy.ofTag : Nat → Option ATy
  | 0 => some .account
  | 1 => some .accountKey
  | 2 => some .model
  | 3 => some .serial
  | 4 => some .serialRequest
  | 5 => some .validationSet
  | _ => none

/-- Modelled from the spec: the assertion value type. `keyTuple` is the
ordered tuple of primary-key header values (without the sequence
number); `seqnum` is the sequence number for sequence-forming types;
`pubKey` is the public key embedded in account-key assertions;
`signKeyID` is the `sign-key-sha3-384` header; `body` is the optional
opaque payload and `signature` the signature bytes. -/
structure Assertion where
  atype : ATy
  keyTuple : List String
  seqnum : Option Nat
  revision : Nat
  authorityID : String
  signKeyID : String
  pubKey : Option Nat
  headers : List (String × HVal)
  body : Option Bytes
  signature : Bytes
deriving DecidableEq, Repr

/-- Modelled from the spec: the canonical encoding of
`type + headers + body` — everything except the signature — which is
the content the signer signs. -/
def signedPart (a : Assertion) : Bytes :=
  [a.atype.tag] ++ encNat a.keyTuple.length ++ (a.keyTuple.map encString).flatten ++
    encOptNat a.seqnum ++ encNat a.revision ++ encString a.authorityID ++
    encString a.signKeyID ++ encOptNat a.pubKey ++ encHeaders a.headers ++
    encOptBytes a.body

/-- Modelled from the spec: the full encoding, the signed content
followed by the signature block (signature bytes pass through this
layer verbatim). -/
def encode (a : Assertion) : Bytes := signedPart a ++ encBytes a.signature

/-- Modelled from the spec: decoding failures are specific parse
errors, never a misparse. -/
inductive ParseErr
  | truncated
  | headersNotCanonical
  | trailingData
deriving DecidableEq, Repr

/-- Modelled from the spec: sequential decoder for an assertion
document, consuming its segments in encoding order. -/
def decAssertion (l : Bytes) : Option (Assertion × Bytes) :=
  match l with
  | [] => none
  | t :: r0 =>
    match ATy.ofTag t with
    | none => none
    | some ty =>
      match decNat r0 with
      | none => none
      | some (nk, r1) =>
        match decStrings nk r1 with
        | none => none
        | some (keyT, r2) =>
          match decOptNat r2 with
          | none => none
          | some (sq, r3) =>
            match decNat r3 with
            | none => none
            | some (rev, r4) =>
              match decString r4 with
              | none => none
              | some (auth, r5) =>
                match decString r5 with
                | none => none
                | some (skid, r6) =>
                  match decOptNat r6 with
                  | none => none
                  | some (pk, r7) =>
                    match decNat r7 with
                    | none => none
                    | some (nh, r8) =>
                      match decHeaders nh r8 with
                      | none => none
                      | some (hs, r9) =>
                        match decOptBytes r9 with
                        | none => none
                        | some (bd, r10) =>
                          match decBytes r10 with
                          | none => none
                          | some (sig, r11) =>
                            some (⟨ty, keyT, sq, rev, auth, skid, pk, hs, bd, sig⟩, r11)

/-- Modelled from the spec: `decode(bytes) -> Assertion | fails(ParseError)`;
the decoder consumes the whole stream and enforces the canonical header
order. -/
def decode (l : Bytes) : Except ParseErr Assertion :=
  match decAssertion l with
  | none => .error .truncated
  | some (a, []) =>
    if keysCanonical a.headers then .ok a else .error .headersNotCanonical
  | some (_, _ :: _) => .error .trailingData

/-! ### Trust database and chain verifier (modelled from the spec) -/

/-- Modelled from the spec: the external key-management facility's
signature check — given a public key, the signed content and the
signature bytes, decide whether the signature verifies. -/
abbrev SigCheck := Nat → Bytes → Bytes → Bool

/-- Modelled from the spec: a statically configured trusted root, a
self-certifying key outside the database. -/
structure TrustedRoot where
  keyID : String
  pubKey : Nat
deriving DecidableEq, Repr

/-- Modelled from the spec: the derived primary key of an assertion —
its type, its primary-key header tuple and (for sequence-forming
types) its sequence number. -/
def pkey (a : Assertion) : ATy × List String × Option Nat :=
  (a.atype, a.keyTuple, a.seqnum)

/-- Modelled from the spec: the Trust Database's store of accepted
assertions. -/
abbrev DB := List Assertion

/-- Modelled from the spec: exact primary-key lookup inside the store. -/
def dbFind (db : DB) (t : ATy) (key : List String) (seq : Option Nat) :
    Option Assertion :=
  db.find? (fun b => decide (b.atype = t ∧ b.keyTuple = key ∧ b.seqnum = seq))

/-- Modelled from the spec: resolve a `sign-key` Key ID to the
account-key assertion stored for it. -/
def findAccountKey (db : DB) (kid : String) : Option Assertion :=
  dbFind db .accountKey [kid] none

/-- Modelled from the spec: chain verification failures. -/
inductive VerErr
  | invalidSignature
  | missingPrerequisite
  | brokenChain
deriving DecidableEq, Repr

/-- Modelled from the spec: look up a Key ID among the statically
trusted roots. -/
def rootFor (roots : List TrustedRoot) (kid : String) : Option TrustedRoot :=
  roots.find? (fun r => decide (r.keyID = kid))

/-- Modelled from the spec: the chain-of-trust walk — resolve the
candidate's `sign-key` to a trusted root or to a stored account-key
assertion (absent: `MissingPrerequisite`), verify the candidate's
signature against that key (`InvalidSignature` on mismatch), and
continue from the account-key until a trusted root signs, detecting
cycles and unreachable roots as `BrokenChain`. -/
def verifyChain (cs : SigCheck) (roots : List TrustedRoot) (db : DB) :
    Nat → List String → Assertion → Except VerErr Unit
  | 0, _, _ => .error .brokenChain
  | fuel + 1, visited, a =>
    match rootFor roots a.signKeyID with
    | some r =>
      if cs r.pubKey (signedPart a) a.signature then .ok ()
      else .error .invalidSignature
    | none =>
      if a.signKeyID ∈ visited then .error .brokenChain
      else
        match findAccountKey db a.signKeyID with
        | none => .error .missingPrerequisite
        | some ak =>
          match ak.pubKey with
          | none => .error .brokenChain
          | some pk =>
            if cs pk (signedPart a) a.signature then
              verifyChain cs roots db fuel (a.signKeyID :: visited) ak
            else .error .invalidSignature

/-- Modelled from the spec:
`verify(assertion, trustedRoots, database) -> Result<VerifiedChain>`;
the walk's depth is bounded by the store's size, which suffices because
each hop consumes a distinct stored key. -/
def verify (cs : SigCheck) (roots : List TrustedRoot) (db : DB)
    (a : Assertion) : Except VerErr Unit :=
  verifyChain cs roots db (db.length + 1) [] a

/-- Modelled from the spec: the key the verifier resolves the
candidate's `sign-key` header to — a trusted root's key, or the public
key embedded in the stored account-key assertion. -/
def resolveSigningKey (roots : List TrustedRoot) (db : DB) (a : Assertion) :
    Option Nat :=
  match rootFor roots a.signKeyID with
  | some r => some r.pubKey
  | none =>
    match findAccountKey db a.signKeyID with
    | some ak => ak.pubKey
    | none => none

/-- Modelled from the spec: static per-type metadata — name,
sequence-forming flag, and the type-specific consistency predicate
invoked against the Trust Database at add-time. -/
structure AssertionTypeDesc where
  name : String
  sequenceForming : Bool
  checkConsistency : DB → Assertion → Bool

/-- Modelled from the spec: an account-key assertion must embed its
public key. -/
def accountKeyConsistency (_db : DB) (a : Assertion) : Bool :=
  a.pubKey.isSome

/-- Modelled from the spec: a serial assertion must reference an
existing model. -/
def serialConsistency (db : DB) (a : Assertion) : Bool :=
  match a.keyTuple with
  | [brand, modelName, _] => (dbFind db .model [brand, modelName] none).isSome
  | _ => false

/-- Modelled from the spec: `describe(type) -> TypeDescriptor`, the
read-only static table of the Assertion Type Registry. -/
def describe : ATy → AssertionTypeDesc
  | .account => ⟨"account", false, fun _ _ => true⟩
  | .accountKey => ⟨"account-key", false, accountKeyConsistency⟩
  | .model => ⟨"model", false, fun _ _ => true⟩
  | .serial => ⟨"serial", false, serialConsistency⟩
  | .serialRequest => ⟨"serial-request", false, fun _ _ => true⟩
  | .validationSet => ⟨"validation-set", true, fun _ _ => true⟩

/-- Modelled from the spec: the failures of `add`. -/
inductive AddErr
  | revisionConflict
  | missingPrerequisite
  | consistencyViolation
  | invalidSignature
  | brokenChain
deriving DecidableEq, Repr

/-- Modelled from the spec: chain-verification failures propagate to
`add`'s caller unchanged in kind. -/
def liftVerErr : VerErr → AddErr
  | .invalidSignature => .invalidSignature
  | .missingPrerequisite => .missingPrerequisite
  | .brokenChain => .brokenChain

/-- Modelled from the spec: make an assertion visible to lookups,
superseding any stored assertion with the same primary key. -/
def dbInsert (db : DB) (a : Assertion) : DB :=
  a :: db.filter (fun b => decide (¬pkey b = pkey a))

/-- Modelled from the spec: `add(assertion)` — verify the signature
chain, check the primary-key/revision invariant, run the type's
consistency predicate, and only then make the assertion visible to
lookups, all-or-nothing. -/
def add (cs : SigCheck) (roots : List TrustedRoot) (db : DB)
    (a : Assertion) : Except AddErr DB :=
  match verify cs roots db a with
  | .error e => .error (liftVerErr e)
  | .ok () =>
    match dbFind db a.atype a.keyTuple a.seqnum with
    | some old =>
      if a.revision ≤ old.revision then .error .revisionConflict
      else if (describe a.atype).checkConsistency db a then
        .ok (dbInsert db a)
      else .error .consistencyViolation
    | none =>
      if (describe a.atype).checkConsistency db a then .ok (dbInsert db a)
      else .error .consistencyViolation

/-- Modelled from the spec: lookup misses. -/
inductive DBErr
  | notFound
deriving DecidableEq, Repr

/-- Modelled from the spec:
`find(type, primaryKey) -> Assertion | fails(NotFound)`. -/
def find (db : DB) (t : ATy) (key : List String) (seq : Option Nat) :
    Except DBErr Assertion :=
  match dbFind db t key seq with
  | some a => .ok a
  | none => .error .notFound

/-- Modelled from the spec: stored assertions of a sequence-forming
type for one subject. -/
def seqCandidates (db : DB) (t : ATy) (subject : List String) :
    List Assertion :=
  db.filter (fun b =>
    decide (b.atype = t ∧ b.keyTuple = subject ∧ b.seqnum.isSome = true))

/-- Modelled from the spec: the sequence number of a stored
sequence-forming assertion. -/
def seqOf (a : Assertion) : Nat := a.seqnum.getD 0

/-- Modelled from the spec: select the candidate with the lowest
sequence number. -/
def pickLeast : List Assertion → Option Assertion
  | [] => none
  | a :: rest =>
    match pickLeast rest with
    | none => some a
    | some b => if seqOf a ≤ seqOf b then some a else some b

/-- Modelled from the spec: select the candidate with the highest
sequence number. -/
def pickGreatest : List Assertion → Option Assertion
  | [] => none
  | a :: rest =>
    match pickGreatest rest with
    | none => some a
    | some b => if seqOf b ≤ seqOf a then some a else some b

/-- Modelled from the spec:
`findSequence(type, subjectKey, after) -> Assertion | fails(NotFound)` —
the lowest stored sequence number strictly greater than `after`, or the
latest when `after` is unset. -/
def findSequence (db : DB) (t : ATy) (subject : List String)
    (after : Option Nat) : Except DBErr Assertion :=
  let result :=
    match after with
    | some n =>
      pickLeast ((seqCandidates db t subject).filter (fun b => decide (n < seqOf b)))
    | none => pickGreatest (seqCandidates db t subject)
  match result with
  | some a => .ok a
  | none => .error .notFound

/-- Modelled from the spec: the operations callers drive the Trust
Database with. -/
inductive DbOp
  | addOp (a : Assertion)
  | findOp (t : ATy) (key : List String) (seq : Option Nat)
  | findSeqOp (t : ATy) (subject : List String) (after : Option Nat)

/-- Modelled from the spec: the outcome reported to the caller of a
Trust Database operation. -/
inductive DbOutcome
  | accepted
  | addFailed (e : AddErr)
  | found (a : Assertion)
  | lookupFailed
deriving DecidableEq, Repr

/-- Modelled from the spec: one caller-driven Trust Database step,
returning the resulting store and the outcome; a failed `add` leaves
the store as it was, and lookups never mutate it. -/
def dbStep (cs : SigCheck) (roots : List TrustedRoot) (db : DB) :
    DbOp → DB × DbOutcome
  | .addOp a =>
    match add cs roots db a with
    | .ok db' => (db', .accepted)
    | .error e => (db, .addFailed e)
  | .findOp t k s =>
    (db, match find db t k s with
         | .ok a => .found a
         | .error _ => .lookupFailed)
  | .findSeqOp t k aft =>
    (db, match findSequence db t k aft with
         | .ok a => .found a
         | .error _ => .lookupFailed)

/-- Modelled from the spec: Trust Database states reachable from the
empty store, together with the list of assertions accepted so far (in
acceptance order); failed adds and lookups leave both unchanged, so
reachable states are exactly those produced by successful adds. -/
inductive ReachableT (cs : SigCheck) (roots : List TrustedRoot) :
    List Assertion → DB → Prop
  | nil : ReachableT cs roots [] []
  | stepAdd {acc db a db'} : ReachableT cs roots acc db →
      add cs roots db a = .ok db' → ReachableT cs roots (acc ++ [a]) db'

/-! ### Registration protocol client (modelled from the spec) -/

/-- Modelled from the spec: the device-side configuration of the
Registration Protocol Client — brand, model, the device key's ID and
the device's own signing primitive, and the retry budget for the
`Pending` transition. -/
structure RegConfig where
  brandID : String
  modelName : String
  deviceKeyID : String
  deviceSign : Bytes → Bytes
  retryBudget : Nat

/-- Modelled from the spec: the self-signed serial-request assertion —
headers `authority-id = brand-id`, `model`, `request-id`, `device-key`,
signed by the device's own private key. -/
def buildSerialRequest (cfg : RegConfig) (requestID : String) : Assertion :=
  let base : Assertion :=
    { atype := .serialRequest
      keyTuple := [requestID]
      seqnum := none
      revision := 0
      authorityID := cfg.brandID
      signKeyID := cfg.deviceKeyID
      pubKey := none
      headers := [("brand-id", .s cfg.brandID), ("device-key", .s cfg.deviceKeyID),
                  ("model", .s cfg.modelName), ("request-id", .s requestID)]
      body := none
      signature := [] }
  { base with signature := cfg.deviceSign (signedPart base) }

/-- Modelled from the spec: the authority's responses over the
HTTP-like transport. -/
inductive HttpResp
  | ok200 (body : Bytes)
  | accepted202
  | badRequest400 (message : String)
  | notImplemented501
deriving DecidableEq, Repr

/-- Modelled from the spec: the events that drive the caller-driven
state machine — a transport response, the backoff timer firing, or
external cancellation. -/
inductive RegEvent
  | resp (r : HttpResp)
  | wake
  | cancel
deriving DecidableEq, Repr

/-- Modelled from the spec: the requests the client can (re)send; a
retried serial-request is byte-identical to the first. -/
inductive RegMsg
  | postRequestID
  | postSerialRequest (req : Bytes)
deriving DecidableEq, Repr

/-- Modelled from the spec: the client's states —
`Init`, `RequestIDObtained`, `Submitting`, `Pending`, `Done`,
`Failed(terminal)`, `Failed(timeout)` and `Cancelled`. -/
inductive RegState
  | init
  | requestIDObtained (requestID : String)
  | submitting (req : Bytes) (retriesLeft : Nat)
  | pending (req : Bytes) (retriesLeft : Nat)
  | done (serial : Assertion)
  | failedTerminal (message : String)
  | failedTimeout
  | cancelled
deriving DecidableEq, Repr

/-- Modelled from the spec: on a `200` from the serial endpoint, decode
the returned serial assertion, require its brand and model to equal the
requested ones (mismatch is a consistency violation, not silently
accepted), then verify its chain and deposit it into the Trust
Database. -/
def acceptSerial (cs : SigCheck) (roots : List TrustedRoot)
    (cfg : RegConfig) (db : DB) (body : Bytes) : RegState × DB :=
  match decode body with
  | .error _ => (.failedTerminal "cannot decode serial assertion", db)
  | .ok serialA =>
    match serialA.atype, serialA.keyTuple with
    | .serial, [brand, modelName, _] =>
      if brand = cfg.brandID ∧ modelName = cfg.modelName then
        match add cs roots db serialA with
        | .ok db' => (.done serialA, db')
        | .error _ => (.failedTerminal "cannot add serial assertion", db)
      else (.failedTerminal "serial assertion mismatch", db)
    | _, _ => (.failedTerminal "not a serial assertion", db)

/-- Modelled from the spec: the client's caller-driven step function;
it returns the next state, the (possibly updated) Trust Database, and
the request sent during the step, if any. `Done`, both `Failed` states
and `Cancelled` are terminal. -/
def regStep (cs : SigCheck) (roots : List TrustedRoot) (cfg : RegConfig)
    (st : RegState) (db : DB) (ev : RegEvent) :
    RegState × DB × Option RegMsg :=
  match st, ev with
  | .init, .resp (.ok200 body) => (.requestIDObtained (bytesStr body), db, none)
  | .init, .resp .notImplemented501 =>
    (.failedTerminal "cannot retrieve request-id", db, none)
  | .init, .cancel => (.cancelled, db, none)
  | .init, _ => (.init, db, none)
  | .requestIDObtained rid, .wake =>
    let req := encode (buildSerialRequest cfg rid)
    (.submitting req cfg.retryBudget, db, some (.postSerialRequest req))
  | .requestIDObtained rid, .cancel => (.cancelled, db, none)
  | .requestIDObtained rid, _ => (.requestIDObtained rid, db, none)
  | .submitting req k, .resp (.ok200 body) =>
    ((acceptSerial cs roots cfg db body).1, (acceptSerial cs roots cfg db body).2, none)
  | .submitting req k, .resp .accepted202 => (.pending req k, db, none)
  | .submitting req k, .resp (.badRequest400 msg) =>
    (.failedTerminal msg, db, none)
  | .submitting req k, .resp .notImplemented501 =>
    (.failedTerminal "unexpected response", db, none)
  | .submitting req k, .cancel => (.cancelled, db, none)
  | .submitting req k, .wake => (.submitting req k, db, none)
  | .pending req k, .wake =>
    match k with
    | 0 => (.failedTimeout, db, none)
    | k' + 1 => (.submitting req k', db, some (.postSerialRequest req))
  | .pending req k, .cancel => (.cancelled, db, none)
  | .pending req k, .resp _ => (.pending req k, db, none)
  | .done a, _ => (.done a, db, none)
  | .failedTerminal m, _ => (.failedTerminal m, db, none)
  | .failedTimeout, _ => (.failedTimeout, db, none)
  | .cancelled, _ => (.cancelled, db, none)

/-! ### Concrete sample instances, used to exercise the model at
concrete inputs -/

/-- A concrete deterministic signature rendering for the sample
instances: the public key followed by the signed content. -/
def sigFor (pk : Nat) (content : Bytes) : Bytes := pk :: content

/-- The matching concrete signature check. -/
def csEx : SigCheck := fun pk content sig => decide (sig = sigFor pk content)

/-- A sample trusted root. -/
def rootEx : TrustedRoot := ⟨"root-key", 7⟩

/-- A sample account-key assertion for the device key, before signing. -/
def akBase : Assertion :=
  { atype := .accountKey
    keyTuple := ["dev-key"]
    seqnum := none
    revision := 0
    authorityID := "acme"
    signKeyID := "root-key"
    pubKey := some 5
    headers := []
    body := none
    signature := [] }

/-- The sample account-key assertion, signed by the trusted root. -/
def akEx : Assertion := { akBase with signature := sigFor 7 (signedPart akBase) }

/-- A sample model assertion at a given revision, before signing. -/
def mBase (rev : Nat) : Assertion :=
  { atype := .model
    keyTuple := ["acme", "widget"]
    seqnum := none
    revision := rev
    authorityID := "acme"
    signKeyID := "root-key"
    pubKey := none
    headers := []
    body := none
    signature := [] }

/-- The sample model assertion, signed by the trusted root. -/
def mEx (rev : Nat) : Assertion :=
  { mBase rev with signature := sigFor 7 (signedPart (mBase rev)) }

/-- A sample leaf assertion signed by the device key (whose account-key
assertion is `akEx`). -/
def leafBase : Assertion :=
  { atype := .model
    keyTuple := ["acme", "gadget"]
    seqnum := none
    revision := 0
    authorityID := "acme"
    signKeyID := "dev-key"
    pubKey := none
    headers := []
    body := none
    signature := [] }

/-- The sample leaf assertion, signed. -/
def leafEx : Assertion := { leafBase with signature := sigFor 5 (signedPart leafBase) }

/-- A sample sequence-forming assertion with the given sequence
number. -/
def vsEx (n : Nat) : Assertion :=
  { atype := .validationSet
    keyTuple := ["acme", "policy"]
    seqnum := some n
    revision := 0
    authorityID := "acme"
    signKeyID := "root-key"
    pubKey := none
    headers := []
    body := none
    signature := [] }

/-- A sample assertion with canonically ordered headers and a body,
used to exercise the codec. -/
def docEx : Assertion :=
  { atype := .serial
    keyTuple := ["acme", "widget", "10001"]
    seqnum := none
    revision := 2
    authorityID := "acme"
    signKeyID := "dev-key"
    pubKey := none
    headers := [("brand-id", .s "acme"), ("model", .s "widget"),
                ("views", .l ["a", "b"]), ("weight", .i (-3))]
    body := some [104, 105]
    signature := [9, 9, 9] }

/-- A sample registration client configuration whose device key is the
one certified by `akEx`. -/
def cfgEx : RegConfig :=
  { brandID := "acme"
    modelName := "widget"
    deviceKeyID := "dev-key"
    deviceSign := sigFor 5
    retryBudget := 3 }

/-- Modelled from the spec: primary-key uniqueness — pairwise distinct
primary keys across the store. -/
def DistinctKeys (db : DB) : Prop :=
  db.Pairwise (fun x y => pkey x ≠ pkey y)

/-! ## Codec lemmas -/

theorem decNat_enc (n : Nat) (r : Bytes) : decNat (encNat n ++ r) = some (n, r) := by
  induction n with
  | zero => rfl
  | succ k ih =>
    have h : encNat (k + 1) ++ r = 1 :: (encNat k ++ r) := by
      simp [encNat, List.replicate_succ]
    rw [h]
    simp [decNat, ih]

theorem decBytes_enc (bs : Bytes) (r : Bytes) :
    decBytes (encBytes bs ++ r) = some (bs, r) := by
  simp only [encBytes, List.append_assoc, decBytes, decNat_enc]
  rw [if_pos (by simp), List.take_left, List.drop_left]

theorem bytesStr_strBytes (s : String) : bytesStr (strBytes s) = s := by
  apply String.ext
  simp [bytesStr, strBytes, List.map_map, Function.comp_def, Char.ofNat_toNat]

theorem decString_enc (s : String) (r : Bytes) :
    decString (encString s ++ r) = some (s, r) := by
  simp [decString, encString, decBytes_enc, bytesStr_strBytes]

theorem decOptNat_enc (v : Option Nat) (r : Bytes) :
    decOptNat (encOptNat v ++ r) = some (v, r) := by
  cases v with
  | none => simp [encOptNat, decOptNat]
  | some n => simp [encOptNat, decOptNat, decNat_enc]

theorem decInt_enc (n : Int) (r : Bytes) : decInt (encInt n ++ r) = some (n, r) := by
  by_cases h : 0 ≤ n
  · simp [encInt, if_pos h, decInt, decNat_enc, Int.toNat_of_nonneg h]
  · simp only [encInt, if_neg h, List.cons_append, decInt, decNat_enc]
    rw [Int.toNat_of_nonneg (by omega)]
    simp

theorem decOptBytes_enc (v : Option Bytes) (r : Bytes) :
    decOptBytes (encOptBytes v ++ r) = some (v, r) := by
  cases v with
  | none => simp [encOptBytes, decOptBytes]
  | some bs => simp [encOptBytes, decOptBytes, decBytes_enc]

theorem decStrings_enc (vs : List String) (r : Bytes) :
    decStrings vs.length ((vs.map encString).flatten ++ r) = some (vs, r) := by
  induction vs with
  | nil => rfl
  | cons v rest ih =>
    simp [decStrings, List.append_assoc, decString_enc, ih]

theorem decHVal_enc (v : HVal) (r : Bytes) : decHVal (encHVal v ++ r) = some (v, r) := by
  cases v with
  | s w => simp [encHVal, decHVal, decString_enc]
  | i n => simp [encHVal, decHVal, decInt_enc]
  | l vs => simp [encHVal, decHVal, List.append_assoc, decNat_enc, decStrings_enc]

theorem decHeaders_enc (hs : List (String × HVal)) (r : Bytes) :
    decHeaders hs.length ((hs.map encHeader).flatten ++ r) = some (hs, r) := by
  induction hs with
  | nil => rfl
  | cons h rest ih =>
    simp [decHeaders, encHeader, List.append_assoc, decString_enc, decHVal_enc, ih]

theorem ofTag_tag (t : ATy) : ATy.ofTag t.tag = some t := by
  cases t <;> rfl

theorem decAssertion_enc (a : Assertion) : decAssertion (encode a) = some (a, []) := by
  have hsig : decBytes (encBytes a.signature) = some (a.signature, []) := by
    have := decBytes_enc a.signature []
    simpa using this
  simp [encode, signedPart, encHeaders, decAssertion, List.append_assoc,
    ofTag_tag, decNat_enc, decStrings_enc, decOptNat_enc, decString_enc,
    decHeaders_enc, decOptBytes_enc, hsig]

/-- C4: for every valid assertion `a` (canonically ordered headers),
`decode (encode a)` succeeds and yields an assertion equal to `a` —
in particular equal in type, headers, body, and signature bytes, the
signature passing through the codec verbatim. -/
theorem c4_decode_encode_roundtrip (a : Assertion)
    (hcanon : keysCanonical a.headers = true) :
    decode (encode a) = .ok a := by
  simp [decode, decAssertion_enc, hcanon]

/-- Witness for C4 at the concrete assertion `docEx`. -/
theorem c4_decode_encode_roundtrip_witness :
    keysCanonical docEx.headers = true ∧ decode (encode docEx) = .ok docEx :=
  ⟨by decide, c4_decode_encode_roundtrip docEx (by decide)⟩

/-! ## Trust database lemmas -/

theorem dbFind_some {db : DB} {t : ATy} {k : List String} {s : Option Nat}
    {a : Assertion} (h : dbFind db t k s = some a) :
    a ∈ db ∧ a.atype = t ∧ a.keyTuple = k ∧ a.seqnum = s := by
  refine ⟨List.mem_of_find?_eq_some h, ?_⟩
  have := List.find?_some h
  simpa using this

theorem dbFind_insert_self (db : DB) (a : Assertion) :
    dbFind (dbInsert db a) a.atype a.keyTuple a.seqnum = some a := by
  simp [dbInsert, dbFind, List.find?]

theorem add_eq_ok {cs : SigCheck} {roots : List TrustedRoot} {db : DB}
    {a : Assertion} {db' : DB} (h : add cs roots db a = .ok db') :
    db' = dbInsert db a ∧ verify cs roots db a = .ok () ∧
      (describe a.atype).checkConsistency db a = true ∧
      (∀ old, dbFind db a.atype a.keyTuple a.seqnum = some old →
        old.revision < a.revision) := by
  unfold add at h
  cases hv : verify cs roots db a with
  | error e => simp [hv] at h
  | ok u =>
    cases u
    cases hf : dbFind db a.atype a.keyTuple a.seqnum with
    | none =>
      cases hc : (describe a.atype).checkConsistency db a with
      | false => simp [hv, hf, hc] at h
      | true =>
        simp only [hv, hf, hc, if_true] at h
        simp only [Except.ok.injEq] at h
        exact ⟨h.symm, rfl, rfl, fun o ho => by cases ho⟩
    | some old =>
      by_cases hr : a.revision ≤ old.revision
      · simp [hv, hf, hr] at h
      · cases hc : (describe a.atype).checkConsistency db a with
        | false => simp [hv, hf, hr, hc] at h
        | true =>
          simp only [hv, hf, hr, if_false, if_true, ite_false, ite_true] at h
          simp only [hc, if_true, Except.ok.injEq] at h
          refine ⟨h.symm, rfl, rfl, fun o ho => ?_⟩
          cases ho
          omega

/-- C2: with an assertion of revision `r` stored for a primary key,
adding another assertion with the same primary key and revision
`r' ≤ r` fails with `RevisionConflict` (the caller is told), while
adding one with `r' > r` (chain and consistency checks passing)
succeeds and every subsequent `find` for that primary key returns the
new assertion. -/
theorem c2_revision_monotonicity {cs : SigCheck} {roots : List TrustedRoot}
    {db : DB} {old a : Assertion}
    (hstore : dbFind db a.atype a.keyTuple a.seqnum = some old)
    (hverify : verify cs roots db a = .ok ()) :
    (a.revision ≤ old.revision → add cs roots db a = .error .revisionConflict) ∧
    (old.revision < a.revision →
      (describe a.atype).checkConsistency db a = true →
      add cs roots db a = .ok (dbInsert db a) ∧
        find (dbInsert db a) a.atype a.keyTuple a.seqnum = .ok a) := by
  constructor
  · intro hle
    simp [add, hverify, hstore, hle]
  · intro hlt hc
    refine ⟨?_, by rw [find, dbFind_insert_self]⟩
    simp [add, hverify, hstore, hc, Nat.not_le.mpr hlt]

/-- Witness for C2: with the sample model assertion at revision 1
stored, adding revision 1 again conflicts, while adding revision 2
succeeds and supersedes it in `find`. -/
theorem c2_revision_monotonicity_witness :
    add csEx [rootEx] [mEx 1] (mEx 1) = .error .revisionConflict ∧
      add csEx [rootEx] [mEx 1] (mEx 2) = .ok (dbInsert [mEx 1] (mEx 2)) ∧
      find (dbInsert [mEx 1] (mEx 2)) .model ["acme", "widget"] none = .ok (mEx 2) := by
  have h1 := @c2_revision_monotonicity csEx [rootEx] [mEx 1] (mEx 1) (mEx 1)
    (by decide) (by rfl)
  have h2 := @c2_revision_monotonicity csEx [rootEx] [mEx 1] (mEx 1) (mEx 2)
    (by decide) (by rfl)
  refine ⟨h1.1 (by decide), (h2.2 (by decide) (by decide)).1, ?_⟩
  have := (h2.2 (by decide) (by decide)).2
  simpa using this

/-- C5: when `add` fails, the database state is unchanged (the
candidate never becomes visible to lookups), and `find`/`findSequence`
never change the state. -/
theorem c5_failure_atomicity (cs : SigCheck) (roots : List TrustedRoot) (db : DB) :
    (∀ a e, add cs roots db a = .error e →
      (dbStep cs roots db (.addOp a)).1 = db) ∧
    (∀ t k s, (dbStep cs roots db (.findOp t k s)).1 = db) ∧
    (∀ t k aft, (dbStep cs roots db (.findSeqOp t k aft)).1 = db) := by
  refine ⟨fun a e h => ?_, fun t k s => rfl, fun t k aft => rfl⟩
  simp [dbStep, h]

/-- Witness for C5: an add that fails (no trusted root, empty
database) leaves the state unchanged, and lookups do too. -/
theorem c5_failure_atomicity_witness :
    add csEx [] [] (mEx 1) = .error .missingPrerequisite ∧
      (dbStep csEx [] [] (.addOp (mEx 1))).1 = [] ∧
      (dbStep csEx [] [] (.findOp .model ["acme", "widget"] none)).1 = [] ∧
      (dbStep csEx [] [] (.findSeqOp .validationSet ["acme", "policy"] none)).1 = [] := by
  have h := c5_failure_atomicity csEx [] []
  exact ⟨by rfl, h.1 (mEx 1) .missingPrerequisite (by rfl),
    h.2.1 .model ["acme", "widget"] none,
    h.2.2 .validationSet ["acme", "policy"] none⟩

/-- C1: the chain verifier rejects with `InvalidSignature` any
assertion whose signature bytes do not verify against the public key
resolved from its `sign-key` header, however well-formed the rest is;
and neither `verify` nor `add` accepts an assertion without its
signature verifying against that key. -/
theorem c1_signature_required (cs : SigCheck) (roots : List TrustedRoot)
    (db : DB) (a : Assertion) :
    (∀ pk, resolveSigningKey roots db a = some pk →
      cs pk (signedPart a) a.signature = false →
      verify cs roots db a = .error .invalidSignature) ∧
    (verify cs roots db a = .ok () →
      ∃ pk, resolveSigningKey roots db a = some pk ∧
        cs pk (signedPart a) a.signature = true) ∧
    (∀ db', add cs roots db a = .ok db' →
      ∃ pk, resolveSigningKey roots db a = some pk ∧
        cs pk (signedPart a) a.signature = true) := by
  have main : (∀ pk, resolveSigningKey roots db a = some pk →
      cs pk (signedPart a) a.signature = false →
      verify cs roots db a = .error .invalidSignature) ∧
      (verify cs roots db a = .ok () →
        ∃ pk, resolveSigningKey roots db a = some pk ∧
          cs pk (signedPart a) a.signature = true) := by
    constructor
    · intro pk hres hbad
      cases hroot : rootFor roots a.signKeyID with
      | some r =>
        rw [resolveSigningKey, hroot] at hres
        cases hres
        simp [verify, verifyChain, hroot, hbad]
      | none =>
        rw [resolveSigningKey, hroot] at hres
        cases hak : findAccountKey db a.signKeyID with
        | none => rw [hak] at hres; cases hres
        | some ak =>
          rw [hak] at hres
          have hres' : ak.pubKey = some pk := hres
          simp [verify, verifyChain, hroot, hak, hres', hbad]
    · intro hok
      cases hroot : rootFor roots a.signKeyID with
      | some r =>
        refine ⟨r.pubKey, by simp [resolveSigningKey, hroot], ?_⟩
        by_contra hbad
        simp only [Bool.not_eq_true] at hbad
        simp [verify, verifyChain, hroot, hbad] at hok
      | none =>
        cases hak : findAccountKey db a.signKeyID with
        | none => simp [verify, verifyChain, hroot, hak] at hok
        | some ak =>
          cases hpk : ak.pubKey with
          | none => simp [verify, verifyChain, hroot, hak, hpk] at hok
          | some pk =>
            refine ⟨pk, by simp [resolveSigningKey, hroot, hak, hpk], ?_⟩
            by_contra hbad
            simp only [Bool.not_eq_true] at hbad
            simp [verify, verifyChain, hroot, hak, hpk, hbad] at hok
  refine ⟨main.1, main.2, fun db' hadd => main.2 (add_eq_ok hadd).2.1⟩

/-- Witness for C1: the sample model assertion with a corrupted
signature resolves to the root key, fails the signature check, and is
rejected with `InvalidSignature`. -/
theorem c1_signature_required_witness :
    resolveSigningKey [rootEx] [] (mBase 1) = some 7 ∧
      csEx 7 (signedPart (mBase 1)) (mBase 1).signature = false ∧
      verify csEx [rootEx] [] (mBase 1) = .error .invalidSignature :=
  ⟨by rfl, by decide,
    (c1_signature_required csEx [rootEx] [] (mBase 1)).1 7 (by rfl) (by decide)⟩

/-- C6: an assertion whose account-key prerequisite is absent from the
database is rejected with `MissingPrerequisite`, and verification
succeeds once the account-key prerequisite (itself signed by a trusted
root) has been added. -/
theorem c6_missing_prerequisite {cs : SigCheck} {roots : List TrustedRoot}
    {db : DB} {a : Assertion}
    (hroot : rootFor roots a.signKeyID = none)
    (habsent : findAccountKey db a.signKeyID = none) :
    verify cs roots db a = .error .missingPrerequisite ∧
      (∀ ak db' pk r, add cs roots db ak = .ok db' →
        ak.atype = .accountKey → ak.keyTuple = [a.signKeyID] →
        ak.seqnum = none → ak.pubKey = some pk →
        cs pk (signedPart a) a.signature = true →
        rootFor roots ak.signKeyID = some r →
        cs r.pubKey (signedPart ak) ak.signature = true →
        verify cs roots db' a = .ok ()) := by
  constructor
  · simp [verify, verifyChain, hroot, habsent]
  · intro ak db' pk r hadd hty hkt hsq hpk hsig hakroot haksig
    obtain ⟨hdb', -, -, -⟩ := add_eq_ok hadd
    subst hdb'
    have hfind : findAccountKey (dbInsert db ak) a.signKeyID = some ak := by
      have h0 := dbFind_insert_self db ak
      rw [hty, hkt, hsq] at h0
      exact h0
    show verifyChain cs roots (dbInsert db ak) ((dbInsert db ak).length + 1) [] a = .ok ()
    have hlen : (dbInsert db ak).length =
        (db.filter (fun b => decide (¬pkey b = pkey ak))).length + 1 := by
      simp [dbInsert]
    rw [hlen]
    simp [verifyChain, hroot, hfind, hpk, hsig, hakroot, haksig]

/-- Witness for C6: the sample leaf assertion is rejected with
`MissingPrerequisite` against the empty database and verifies once its
account-key `akEx` has been added. -/
theorem c6_missing_prerequisite_witness :
    verify csEx [rootEx] [] leafEx = .error .missingPrerequisite ∧
      add csEx [rootEx] [] akEx = .ok (dbInsert [] akEx) ∧
      verify csEx [rootEx] (dbInsert [] akEx) leafEx = .ok () := by
  have h := @c6_missing_prerequisite csEx [rootEx] [] leafEx (by rfl) (by rfl)
  exact ⟨h.1, by rfl,
    h.2 akEx (dbInsert [] akEx) 5 rootEx (by rfl) (by rfl) (by rfl) (by rfl)
      (by rfl) (by decide) (by rfl) (by decide)⟩

/-! ## Reachable-state invariants -/

theorem distinct_pkey_unique {db : DB} {x y : Assertion} (hD : DistinctKeys db)
    (hx : x ∈ db) (hy : y ∈ db) (hxy : pkey x = pkey y) : x = y := by
  by_contra hne
  have hsymm : Symmetric (fun u v : Assertion => pkey u ≠ pkey v) := by
    intro u v h e
    exact h e.symm
  exact (List.Pairwise.forall hsymm hD hx hy hne) hxy

theorem dbFind_of_mem {db : DB} {x : Assertion} (hD : DistinctKeys db)
    (hx : x ∈ db) : dbFind db x.atype x.keyTuple x.seqnum = some x := by
  induction db with
  | nil => cases hx
  | cons b rest ih =>
    rcases List.mem_cons.mp hx with hbx | hxr
    · subst hbx
      unfold dbFind
      rw [List.find?_cons_of_pos _ (by simp)]
    · have hD' := List.pairwise_cons.mp hD
      have hbne : pkey b ≠ pkey x := hD'.1 x hxr
      unfold dbFind
      rw [List.find?_cons_of_neg _ (by
        simp only [decide_eq_true_eq]
        intro hcon
        exact hbne (by simp [pkey, hcon.1, hcon.2.1, hcon.2.2]))]
      exact ih hD'.2 hxr

theorem reachable_invariant {cs : SigCheck} {roots : List TrustedRoot}
    {acc : List Assertion} {db : DB} (h : ReachableT cs roots acc db) :
    DistinctKeys db ∧
      (∀ a ∈ db, a ∈ acc ∧ ∀ b ∈ acc, pkey b = pkey a → b.revision ≤ a.revision) ∧
      (∀ b ∈ acc, ∃ a ∈ db, pkey a = pkey b) := by
  induction h with
  | nil => exact ⟨List.Pairwise.nil, by simp, by simp⟩
  | stepAdd hre hadd ih =>
    rename_i acc₀ db₀ a db'
    obtain ⟨hdb', hver, hcons, hrev⟩ := add_eq_ok hadd
    subst hdb'
    obtain ⟨ihD, ihMax, ihPres⟩ := ih
    refine ⟨?_, ?_, ?_⟩
    · refine List.pairwise_cons.mpr ⟨?_, List.Pairwise.filter _ ihD⟩
      intro x hxf
      have := (List.mem_filter.mp hxf).2
      simp only [decide_eq_true_eq] at this
      exact fun e => this e.symm
    · intro x hx
      rcases List.mem_cons.mp hx with hxa | hxf
      · subst hxa
        refine ⟨by simp, ?_⟩
        intro b hb hpk
        rcases List.mem_append.mp hb with hb₀ | hba
        · obtain ⟨c, hc, hcpk⟩ := ihPres b hb₀
          have hcpka : pkey c = pkey x := hcpk.trans hpk
          have hfc : dbFind db₀ x.atype x.keyTuple x.seqnum = some c := by
            have h0 := dbFind_of_mem ihD hc
            have h1 : c.atype = x.atype ∧ c.keyTuple = x.keyTuple ∧
                c.seqnum = x.seqnum := by
              simpa [pkey, Prod.ext_iff] using hcpka
            rw [h1.1, h1.2.1, h1.2.2] at h0
            exact h0
          have hlt : c.revision < x.revision := hrev c hfc
          have hble : b.revision ≤ c.revision :=
            (ihMax c hc).2 b hb₀ hcpk.symm
          omega
        · have hba' : b = x := by simpa using hba
          rw [hba']
      · have hmem := List.mem_filter.mp hxf
        have hne : pkey x ≠ pkey a := by
          have := hmem.2
          simpa using this
        refine ⟨List.mem_append.mpr (Or.inl (ihMax x hmem.1).1), ?_⟩
        intro b hb hpk
        rcases List.mem_append.mp hb with hb₀ | hba
        · exact (ihMax x hmem.1).2 b hb₀ hpk
        · have hba' : b = a := by simpa using hba
          rw [hba'] at hpk
          exact absurd hpk.symm hne
    · intro b hb
      rcases List.mem_append.mp hb with hb₀ | hba
      · obtain ⟨c, hc, hcpk⟩ := ihPres b hb₀
        by_cases hca : pkey c = pkey a
        · exact ⟨a, by simp [dbInsert], hca.symm.trans hcpk⟩
        · refine ⟨c, ?_, hcpk⟩
          refine List.mem_cons.mpr (Or.inr (List.mem_filter.mpr ⟨hc, ?_⟩))
          simpa using hca
      · have hba' : b = a := by simpa using hba
        exact ⟨a, by simp [dbInsert], by rw [hba']⟩

/-- C3: in every reachable Trust Database state, at most one assertion
is retained per (type, primary key) — the one with the highest revision
accepted so far — every accepted primary key stays represented, and
lookups return exactly the retained (highest-revision) assertion. -/
theorem c3_highest_revision_retained {cs : SigCheck} {roots : List TrustedRoot}
    {acc : List Assertion} {db : DB} (h : ReachableT cs roots acc db) :
    DistinctKeys db ∧
      (∀ a ∈ db, a ∈ acc ∧ ∀ b ∈ acc, pkey b = pkey a → b.revision ≤ a.revision) ∧
      (∀ b ∈ acc, ∃ a ∈ db, pkey a = pkey b) ∧
      (∀ a ∈ db, find db a.atype a.keyTuple a.seqnum = .ok a) := by
  obtain ⟨hD, hMax, hPres⟩ := reachable_invariant h
  refine ⟨hD, hMax, hPres, fun a ha => ?_⟩
  rw [find, dbFind_of_mem hD ha]

/-- Witness for C3 at the concrete reachable state holding the sample
model assertion. -/
theorem c3_highest_revision_retained_witness :
    DistinctKeys [mEx 1] ∧
      find [mEx 1] (mEx 1).atype (mEx 1).keyTuple (mEx 1).seqnum = .ok (mEx 1) := by
  have hr : ReachableT csEx [rootEx] [mEx 1] [mEx 1] := by
    have hadd : add csEx [rootEx] [] (mEx 1) = .ok [mEx 1] := by rfl
    have := ReachableT.stepAdd (ReachableT.nil) hadd
    simpa using this
  have h := c3_highest_revision_retained hr
  exact ⟨h.1, h.2.2.2 (mEx 1) (by simp)⟩

/-! ## Sequence lookup lemmas -/

theorem pickLeast_mem : ∀ {l : List Assertion} {r : Assertion},
    pickLeast l = some r → r ∈ l := by
  intro l
  induction l with
  | nil => intro r h; cases h
  | cons a rest ih =>
    intro r h
    rw [pickLeast] at h
    cases hp : pickLeast rest with
    | none => rw [hp] at h; cases h; exact List.mem_cons_self _ _
    | some b =>
      rw [hp] at h
      replace h : (if seqOf a ≤ seqOf b then some a else some b) = some r := h
      by_cases hle : seqOf a ≤ seqOf b
      · rw [if_pos hle] at h; cases h; exact List.mem_cons_self _ _
      · rw [if_neg hle] at h; cases h
        exact List.mem_cons_of_mem _ (ih hp)

theorem pickLeast_le : ∀ {l : List Assertion} {r : Assertion},
    pickLeast l = some r → ∀ x ∈ l, seqOf r ≤ seqOf x := by
  intro l
  induction l with
  | nil => intro r h; cases h
  | cons a rest ih =>
    intro r h x hx
    rw [pickLeast] at h
    cases hp : pickLeast rest with
    | none =>
      rw [hp] at h
      cases h
      have : rest = [] := by
        cases rest with
        | nil => rfl
        | cons c cs =>
          rw [pickLeast] at hp
          cases hpc : pickLeast cs with
          | none => rw [hpc] at hp; cases hp
          | some d =>
            rw [hpc] at hp
            replace hp : (if seqOf c ≤ seqOf d then some c else some d) = none := hp
            by_cases hcd : seqOf c ≤ seqOf d
            · rw [if_pos hcd] at hp; cases hp
            · rw [if_neg hcd] at hp; cases hp
      subst this
      have hxa : x = a := by simpa using hx
      simp [hxa]
    | some b =>
      rw [hp] at h
      replace h : (if seqOf a ≤ seqOf b then some a else some b) = some r := h
      rcases List.mem_cons.mp hx with hxa | hxr
      · subst hxa
        by_cases hle : seqOf x ≤ seqOf b
        · rw [if_pos hle] at h; cases h; exact Nat.le_refl _
        · rw [if_neg hle] at h; cases h
          omega
      · by_cases hle : seqOf a ≤ seqOf b
        · rw [if_pos hle] at h; cases h
          exact Nat.le_trans hle (ih hp x hxr)
        · rw [if_neg hle] at h; cases h
          exact ih hp x hxr

theorem pickLeast_eq_none : ∀ {l : List Assertion},
    pickLeast l = none → l = [] := by
  intro l h
  cases l with
  | nil => rfl
  | cons a rest =>
    rw [pickLeast] at h
    cases hp : pickLeast rest with
    | none => rw [hp] at h; cases h
    | some b =>
      rw [hp] at h
      replace h : (if seqOf a ≤ seqOf b then some a else some b) = none := h
      by_cases hle : seqOf a ≤ seqOf b
      · rw [if_pos hle] at h; cases h
      · rw [if_neg hle] at h; cases h

theorem pickGreatest_mem : ∀ {l : List Assertion} {r : Assertion},
    pickGreatest l = some r → r ∈ l := by
  intro l
  induction l with
  | nil => intro r h; cases h
  | cons a rest ih =>
    intro r h
    rw [pickGreatest] at h
    cases hp : pickGreatest rest with
    | none => rw [hp] at h; cases h; exact List.mem_cons_self _ _
    | some b =>
      rw [hp] at h
      replace h : (if seqOf b ≤ seqOf a then some a else some b) = some r := h
      by_cases hle : seqOf b ≤ seqOf a
      · rw [if_pos hle] at h; cases h; exact List.mem_cons_self _ _
      · rw [if_neg hle] at h; cases h
        exact List.mem_cons_of_mem _ (ih hp)

theorem pickGreatest_ge : ∀ {l : List Assertion} {r : Assertion},
    pickGreatest l = some r → ∀ x ∈ l, seqOf x ≤ seqOf r := by
  intro l
  induction l with
  | nil => intro r h; cases h
  | cons a rest ih =>
    intro r h x hx
    rw [pickGreatest] at h
    cases hp : pickGreatest rest with
    | none =>
      rw [hp] at h
      cases h
      have : rest = [] := by
        cases rest with
        | nil => rfl
        | cons c cs =>
          rw [pickGreatest] at hp
          cases hpc : pickGreatest cs with
          | none => rw [hpc] at hp; cases hp
          | some d =>
            rw [hpc] at hp
            replace hp : (if seqOf d ≤ seqOf c then some c else some d) = none := hp
            by_cases hcd : seqOf d ≤ seqOf c
            · rw [if_pos hcd] at hp; cases hp
            · rw [if_neg hcd] at hp; cases hp
      subst this
      have hxa : x = a := by simpa using hx
      simp [hxa]
    | some b =>
      rw [hp] at h
      replace h : (if seqOf b ≤ seqOf a then some a else some b) = some r := h
      rcases List.mem_cons.mp hx with hxa | hxr
      · subst hxa
        by_cases hle : seqOf b ≤ seqOf x
        · rw [if_pos hle] at h; cases h; exact Nat.le_refl _
        · rw [if_neg hle] at h; cases h
          omega
      · by_cases hle : seqOf b ≤ seqOf a
        · rw [if_pos hle] at h; cases h
          exact Nat.le_trans (ih hp x hxr) hle
        · rw [if_neg hle] at h; cases h
          exact ih hp x hxr

theorem pickGreatest_eq_none : ∀ {l : List Assertion},
    pickGreatest l = none → l = [] := by
  intro l h
  cases l with
  | nil => rfl
  | cons a rest =>
    rw [pickGreatest] at h
    cases hp : pickGreatest rest with
    | none => rw [hp] at h; cases h
    | some b =>
      rw [hp] at h
      replace h : (if seqOf b ≤ seqOf a then some a else some b) = none := h
      by_cases hle : seqOf b ≤ seqOf a
      · rw [if_pos hle] at h; cases h
      · rw [if_neg hle] at h; cases h

theorem mem_seqCandidates {db : DB} {t : ATy} {subject : List String}
    {x : Assertion} :
    x ∈ seqCandidates db t subject ↔
      x ∈ db ∧ x.atype = t ∧ x.keyTuple = subject ∧ x.seqnum.isSome = true := by
  simp [seqCandidates, List.mem_filter, and_assoc]

theorem seqnum_eq_seqOf {x : Assertion} (h : x.seqnum.isSome = true) :
    x.seqnum = some (seqOf x) := by
  cases hs : x.seqnum with
  | none => rw [hs] at h; cases h
  | some s => simp [seqOf, hs]

/-- C7: for a sequence-forming type and subject, `findSequence` with
`after = some n` returns the stored assertion whose sequence number is
the lowest one strictly greater than `n`, returns the latest stored
assertion when `after` is unset, and fails with `NotFound` when no
stored sequence number exceeds `n`. -/
theorem c7_findSequence_semantics {db : DB} {t : ATy} {subject : List String}
    (hD : DistinctKeys db) :
    (∀ n a s, a ∈ db → a.atype = t → a.keyTuple = subject → a.seqnum = some s →
      n < s →
      (∀ b ∈ db, b.atype = t → b.keyTuple = subject → ∀ s', b.seqnum = some s' →
        n < s' → s ≤ s') →
      findSequence db t subject (some n) = .ok a) ∧
    (∀ n, (∀ b ∈ db, b.atype = t → b.keyTuple = subject → ∀ s', b.seqnum = some s' →
        s' ≤ n) →
      findSequence db t subject (some n) = .error .notFound) ∧
    (∀ a s, a ∈ db → a.atype = t → a.keyTuple = subject → a.seqnum = some s →
      (∀ b ∈ db, b.atype = t → b.keyTuple = subject → ∀ s', b.seqnum = some s' →
        s' ≤ s) →
      findSequence db t subject none = .ok a) := by
  refine ⟨?_, ?_, ?_⟩
  · intro n a s ha hat hkt hsq hlt hmin
    have haf : a ∈ (seqCandidates db t subject).filter
        (fun b => decide (n < seqOf b)) := by
      refine List.mem_filter.mpr
        ⟨mem_seqCandidates.mpr ⟨ha, hat, hkt, by simp [hsq]⟩, ?_⟩
      simp [seqOf, hsq, hlt]
    cases hp : pickLeast ((seqCandidates db t subject).filter
        (fun b => decide (n < seqOf b))) with
    | none => rw [pickLeast_eq_none hp] at haf; cases haf
    | some rr =>
      have hrf := pickLeast_mem hp
      have hrc := List.mem_filter.mp hrf
      obtain ⟨hrdb, hrat, hrkt, hrsome⟩ := mem_seqCandidates.mp hrc.1
      have hrseq : rr.seqnum = some (seqOf rr) := seqnum_eq_seqOf hrsome
      have hnlt : n < seqOf rr := by simpa using hrc.2
      have h1 : s ≤ seqOf rr := hmin rr hrdb hrat hrkt (seqOf rr) hrseq hnlt
      have h2 : seqOf rr ≤ s := by
        have := pickLeast_le hp a haf
        simpa [seqOf, hsq] using this
      have heq : seqOf rr = s := Nat.le_antisymm h2 h1
      have hpk : pkey rr = pkey a := by
        simp [pkey, hrat, hrkt, hat, hkt, hrseq, hsq, heq]
      have hra : rr = a := distinct_pkey_unique hD hrdb ha hpk
      simp [findSequence, hp, hra]
  · intro n hub
    have hempty : (seqCandidates db t subject).filter
        (fun b => decide (n < seqOf b)) = [] := by
      refine List.filter_eq_nil_iff.mpr ?_
      intro x hxc
      obtain ⟨hxdb, hxat, hxkt, hxs⟩ := mem_seqCandidates.mp hxc
      have hxub : seqOf x ≤ n := hub x hxdb hxat hxkt (seqOf x) (seqnum_eq_seqOf hxs)
      simp
      omega
    simp [findSequence, hempty, pickLeast]
  · intro a s ha hat hkt hsq hub
    have hac : a ∈ seqCandidates db t subject :=
      mem_seqCandidates.mpr ⟨ha, hat, hkt, by simp [hsq]⟩
    cases hp : pickGreatest (seqCandidates db t subject) with
    | none => rw [pickGreatest_eq_none hp] at hac; cases hac
    | some rr =>
      obtain ⟨hrdb, hrat, hrkt, hrsome⟩ := mem_seqCandidates.mp (pickGreatest_mem hp)
      have hrseq : rr.seqnum = some (seqOf rr) := seqnum_eq_seqOf hrsome
      have h1 : seqOf rr ≤ s := hub rr hrdb hrat hrkt (seqOf rr) hrseq
      have h2 : s ≤ seqOf rr := by
        have := pickGreatest_ge hp a hac
        simpa [seqOf, hsq] using this
      have heq : seqOf rr = s := Nat.le_antisymm h1 h2
      have hpk : pkey rr = pkey a := by
        simp [pkey, hrat, hrkt, hat, hkt, hrseq, hsq, heq]
      have hra : rr = a := distinct_pkey_unique hD hrdb ha hpk
      simp [findSequence, hp, hra]

/-- Witness for C7: with sequence numbers 1, 2, 3 stored for one
subject, `findSequence` after 1 returns the assertion with sequence 2. -/
theorem c7_findSequence_semantics_witness :
    DistinctKeys [vsEx 1, vsEx 2, vsEx 3] ∧
      findSequence [vsEx 1, vsEx 2, vsEx 3] .validationSet ["acme", "policy"]
        (some 1) = .ok (vsEx 2) := by
  have hD : DistinctKeys [vsEx 1, vsEx 2, vsEx 3] := by
    simp [DistinctKeys, List.pairwise_cons, pkey, vsEx]
  exact ⟨hD, (c7_findSequence_semantics hD).1 1 (vsEx 2) 2 (by decide)
    (by decide) (by decide) (by decide) (by decide) (by decide)⟩

/-! ## Registration protocol client -/

/-- C8: in `Submitting`, a `400` response with a structured error body
drives the client to the terminal `Failed` state carrying the body's
message verbatim, with nothing sent; a terminally failed client never
sends anything again; and the serial-request is only (re)sent when
leaving `RequestIDObtained` (the initial submission) or `Pending` (the
retry transition). -/
theorem c8_terminal_failure (cs : SigCheck) (roots : List TrustedRoot)
    (cfg : RegConfig) :
    (∀ req k msg db, regStep cs roots cfg (.submitting req k) db
        (.resp (.badRequest400 msg)) = (.failedTerminal msg, db, none)) ∧
    (∀ m db ev, regStep cs roots cfg (.failedTerminal m) db ev =
        (.failedTerminal m, db, none)) ∧
    (∀ st db ev req', (regStep cs roots cfg st db ev).2.2 =
        some (.postSerialRequest req') →
      (∃ rid, st = .requestIDObtained rid) ∨ ∃ r0 k, st = .pending r0 k) := by
  refine ⟨fun req k msg db => rfl, fun m db ev => by cases ev <;> rfl, ?_⟩
  intro st db ev req' h
  cases st with
  | init =>
    cases ev with
    | resp r => cases r <;> simp [regStep] at h
    | wake => simp [regStep] at h
    | cancel => simp [regStep] at h
  | requestIDObtained rid =>
    cases ev with
    | resp r => cases r <;> simp [regStep] at h
    | wake => exact Or.inl ⟨rid, rfl⟩
    | cancel => simp [regStep] at h
  | submitting req k =>
    cases ev with
    | resp r => cases r <;> simp [regStep] at h
    | wake => simp [regStep] at h
    | cancel => simp [regStep] at h
  | pending req k =>
    cases ev with
    | resp r => cases r <;> simp [regStep] at h
    | wake => exact Or.inr ⟨req, k, rfl⟩
    | cancel => simp [regStep] at h
  | done a => cases ev <;> simp [regStep] at h
  | failedTerminal m => cases ev <;> simp [regStep] at h
  | failedTimeout => cases ev <;> simp [regStep] at h
  | cancelled => cases ev <;> simp [regStep] at h

/-- Witness for C8: the concrete `400` scenario — the message
"bad serial-request" is surfaced verbatim in the terminal failure, the
failed state ignores further events without sending, and the send
hypothesis is exercised from `Pending`. -/
theorem c8_terminal_failure_witness :
    regStep csEx [rootEx] cfgEx (.submitting [9] 1) []
        (.resp (.badRequest400 "bad serial-request")) =
      (.failedTerminal "bad serial-request", [], none) ∧
    regStep csEx [rootEx] cfgEx (.failedTerminal "bad serial-request") [] .wake =
      (.failedTerminal "bad serial-request", [], none) ∧
    ((∃ rid, RegState.pending [9] 1 = .requestIDObtained rid) ∨
      ∃ r0 k, RegState.pending [9] 1 = .pending r0 k) := by
  have h := c8_terminal_failure csEx [rootEx] cfgEx
  exact ⟨h.1 [9] 1 "bad serial-request" [],
    h.2.1 "bad serial-request" [] .wake,
    h.2.2 (.pending [9] 1) [] .wake [9] (by rfl)⟩

/-! ## Version validation -/

theorem validateVersion_none_iff (v : List Char) :
    ValidateVersion v = none ↔ isValidVersion v = true := by
  cases hv : isValidVersion v with
  | true => simp [ValidateVersion, hv]
  | false =>
    simp only [ValidateVersion, hv, Bool.false_eq_true, if_false]
    constructor
    · intro h
      by_cases h0 : v.length = 0
      · rw [if_pos h0] at h; cases h
      · rw [if_neg h0] at h
        by_cases h1 : v.any (fun c => !isGraphChar c) = true
        · rw [if_pos h1] at h; cases h
        · rw [if_neg h1] at h
          cases hr : versionFailureReasons v with
          | nil => rw [hr] at h; cases h
          | cons rhd rtl =>
            cases rtl with
            | nil => rw [hr] at h; cases h
            | cons r2 rtl2 => rw [hr] at h; cases h
    · intro h
      cases h

/-- C9: `ValidateVersion v` returns nil exactly when `v` is non-empty,
at most 32 characters long, starts with an ASCII alphanumeric, ends
(when longer than one character) with an ASCII alphanumeric, `+` or
`~`, and every interior character belongs to `[a-zA-Z0-9:.+~-]`; every
violation yields a non-nil error. -/
theorem c9_validate_version_iff (v : List Char) :
    ValidateVersion v = none ↔
      (v ≠ [] ∧ v.length ≤ 32 ∧
        (∀ c, v.head? = some c → isAlnumChar c = true) ∧
        (1 < v.length → ∀ c, v.getLast? = some c → isLastVersionChar c = true) ∧
        (∀ c ∈ (v.drop 1).dropLast, isMidVersionChar c = true)) := by
  rw [validateVersion_none_iff]
  cases v with
  | nil => simp [isValidVersion]
  | cons c rest =>
    cases rest with
    | nil =>
      simp [isValidVersion]
    | cons a t =>
      cases hrl : (a :: t).getLast? with
      | none => rw [List.getLast?_eq_none_iff] at hrl; cases hrl
      | some lastc =>
        constructor
        · intro h
          simp only [isValidVersion, hrl, Bool.and_eq_true, decide_eq_true_eq,
            List.all_eq_true] at h
          obtain ⟨h1, ⟨h2, h3⟩, h4⟩ := h
          refine ⟨by simp, by simp only [List.length_cons] at h2 ⊢; omega, ?_, ?_, ?_⟩
          · intro c' hc'
            rw [List.head?_cons] at hc'
            cases hc'
            exact h1
          · intro _ c' hc'
            rw [List.getLast?_cons_cons, hrl] at hc'
            cases hc'
            exact h4
          · intro x hx
            simp only [List.drop_one, List.tail_cons] at hx
            exact h3 x hx
        · rintro ⟨-, hlen, hhead, hlast, hmid⟩
          simp only [isValidVersion, hrl, Bool.and_eq_true, decide_eq_true_eq,
            List.all_eq_true]
          refine ⟨hhead c rfl, ⟨?_, ?_⟩, ?_⟩
          · simp only [List.length_cons] at hlen ⊢
            omega
          · intro x hx
            refine hmid x ?_
            simpa using hx
          · refine hlast (by simp only [List.length_cons]; omega) lastc ?_
            rw [List.getLast?_cons_cons, hrl]

/-- Witness for C9: the concrete version string `1.0~` satisfies the
conditions and validates cleanly. -/
theorem c9_validate_version_iff_witness :
    ValidateVersion ['1', '.', '0', '~'] = none := by
  refine (c9_validate_version_iff ['1', '.', '0', '~']).mpr
    ⟨by decide, by decide, ?_, ?_, by decide⟩
  · intro c hc
    cases hc
    decide
  · intro _ c hc
    cases hc
    decide

/-! ## Device number packing -/

/-- C10: packing a major and minor device number and reading the
components back returns the major unchanged and the minor reduced
modulo `2^16`; in particular the round-trip is the identity whenever
`minor < 2^16`. -/
theorem c10_device_pack_roundtrip (M m : Nat) :
    Device.major (Device.pack M m) = M ∧
      Device.minor (Device.pack M m) = m % 2 ^ 16 ∧
      (m < 2 ^ 16 → Device.minor (Device.pack M m) = m) := by
  have h65536 : ((1 : Nat) <<< 16) = 2 ^ 16 := by norm_num [Nat.shiftLeft_eq]
  have hmaj : Device.major (Device.pack M m) = M := by
    apply Nat.eq_of_testBit_eq
    intro i
    simp only [Device.major, Device.pack, Nat.testBit_shiftRight, Nat.testBit_lor,
      Nat.testBit_shiftLeft, Nat.testBit_land, h65536, Nat.testBit_two_pow_sub_one]
    rw [show 16 + i - 16 = i from by omega]
    have d1 : 16 + i ≥ 16 := by omega
    have d2 : ¬(16 + i < 16) := by omega
    simp [d1, d2]
  have hmin : Device.minor (Device.pack M m) = m % 2 ^ 16 := by
    apply Nat.eq_of_testBit_eq
    intro i
    simp only [Device.minor, Device.pack, Nat.testBit_land, Nat.testBit_lor,
      Nat.testBit_shiftLeft, h65536, Nat.testBit_two_pow_sub_one,
      Nat.testBit_mod_two_pow]
    by_cases hi : i < 16
    · have d1 : ¬(i ≥ 16) := by omega
      simp [hi, d1, Bool.and_comm]
    · simp [hi]
  exact ⟨hmaj, hmin, fun hm => by rw [hmin, Nat.mod_eq_of_lt hm]⟩

/-- Witness for C10: concrete device numbers, including a minor that
overflows 16 bits and one that does not. -/
theorem c10_device_pack_roundtrip_witness :
    Device.major (Device.pack 3 70000) = 3 ∧
      Device.minor (Device.pack 3 70000) = 70000 % 2 ^ 16 ∧
      (5 < 2 ^ 16 ∧ Device.minor (Device.pack 3 5) = 5) :=
  ⟨(c10_device_pack_roundtrip 3 70000).1, (c10_device_pack_roundtrip 3 70000).2.1,
    by norm_num, (c10_device_pack_roundtrip 3 5).2.2 (by norm_num)⟩

end Snapd
